import Mathlib

/-
  Verification of the logging core of the pkisensee/Util repository
  (src/Log.h and src/Util.cpp) against its natural-language specification.
  Messages are modelled as lists of byte values (Nat), machine buffers as
  bounded lists, and the Log singleton as an explicit state record.
-/

set_option maxRecDepth 100000

namespace PKIsensee

def kLogBufferSize : Nat := 2048
def kMaxStatusSize : Nat := 1024
def kTimeBuffer : Nat := 26

def lfByte : Nat := 10
def crByte : Nat := 13

/-- Byte values of a string literal, for readable concrete inputs. -/
def bytes (s : String) : List Nat := s.data.map Char.toNat

/-- Condition of line 179 of Log.h: the current byte is a line feed, it is
not the first byte of the rendered buffer (prev is some), and the previous
rendered byte is not a carriage return. -/
def convertsAt (prev : Option Nat) (c : Nat) : Bool :=
  c == lfByte &&
    (match prev with
     | some p => p != crByte
     | none => false)

/-- Faithful model of the LF-to-CRLF scan of Log.Write (Log.h lines 173-183).
The loop keeps a write cursor r into the replace buffer and stops only when
r lands exactly on re1 = kLogBufferSize - 1; the returned list is the exact
sequence of bytes the loop stores, in order, which can be longer than the
buffer when an insertion jumps the cursor over re1. -/
def normLoop (re1 : Nat) : List Nat → Option Nat → Nat → List Nat
  | [], _, _ => []
  | c :: rest, prev, r =>
    if r = re1 then []
    else if convertsAt prev c then
      crByte :: c :: normLoop re1 rest (some c) (r + 2)
    else
      c :: normLoop re1 rest (some c) (r + 1)

/-- The LF-to-CRLF normalization exactly as Log.Write performs it. -/
def normalize (msg : List Nat) : List Nat :=
  normLoop (kLogBufferSize - 1) msg none 0

/-- The same conversion rule with no capacity bound; reference function for
reasoning about the scan. -/
def normWC : List Nat → Option Nat → List Nat
  | [], _ => []
  | c :: rest, prev =>
    if convertsAt prev c then crByte :: c :: normWC rest (some c)
    else c :: normWC rest (some c)

/-- Modelled from the spec wording of claim C2: rewrite every line feed not
already preceded by a carriage return, including one at the first position.
Used only to exhibit where the claim and the code differ. -/
def normClaim : List Nat → Option Nat → List Nat
  | [], _ => []
  | c :: rest, prev =>
    if c == lfByte && !(prev == some crByte) then
      crByte :: c :: normClaim rest (some c)
    else
      c :: normClaim rest (some c)

/-- True when no byte of the list triggers the conversion rule, given the
byte preceding the list. -/
def noBareLF : Option Nat → List Nat → Bool
  | _, [] => true
  | prev, c :: rest => !(convertsAt prev c) && noBareLF (some c) rest

/-- Output of fprintf( stream, buffer ) when buffer is used as the format
string and no variadic arguments are supplied (Log.h line 221): a doubled
percent prints a single percent, any other conversion specifier has no
argument and the behaviour is undefined (none). -/
def fprintfOut : List Nat → Option (List Nat)
  | [] => some []
  | c :: rest =>
    if c = 37 then
      match rest with
      | d :: rest2 => if d = 37 then (fprintfOut rest2).map (fun t => 37 :: t) else none
      | [] => none
    else (fprintfOut rest).map (fun t => c :: t)

/-- Status portion written by Log.Write lines 190-201: at most kMaxStatusSize
status bytes followed by a colon and a space, present only when the channel
uses a status and the status string is non-empty. -/
def statusChunk (withSt : Bool) (status : List Nat) : List Nat :=
  if withSt && !status.isEmpty then
    status.take kMaxStatusSize ++ [58, 32]
  else []

/-- Final composed bytes of one Log.Write call (lines 161-208): the message
is rendered into a kLogBufferSize buffer (at most kLogBufferSize - 1 bytes),
line feeds are normalized, and the status chunk is prepended with the body
clipped to kLogBufferSize - statusSize bytes. -/
def composeOutput (withSt : Bool) (status msg : List Nat) : List Nat :=
  let rendered := msg.take (kLogBufferSize - 1)
  let replaced := normalize rendered
  let sp := statusChunk withSt status
  sp ++ replaced.take (min replaced.length (kLogBufferSize - sp.length))

/-- Modelled from the spec: the file abstraction used by the logger
(File.h is not among the sources; only its calls appear in Log.h). A file
records its path, whether it is open, and the bytes appended since it was
created; writing to a file that is not open is a silent no-op, creating
truncates and opens (or leaves the file closed when the open fails), and
closing clears the open flag. -/
structure File where
  fPath : List Nat
  fOpen : Bool
  content : List Nat
deriving DecidableEq

def File.wr (f : File) (d : List Nat) : File :=
  if f.fOpen then { f with content := f.content ++ d } else f

def File.create (f : File) (ok : Bool) : File :=
  if ok then { f with fOpen := true, content := [] } else { f with fOpen := false }

def File.close (f : File) : File := { f with fOpen := false }

def File.setFile (f : File) (p : List Nat) : File := { f with fPath := p }

/-- Destination stream selector of a channel (Log.h lines 66-71). -/
inductive StdOutput
  | Err
  | Out
  | Null
deriving DecidableEq

/-- The five channel kinds of Log.h lines 45-54, without the iteration
sentinel. -/
inductive LogType
  | Error
  | Warning
  | Screen
  | Note
  | File
deriving DecidableEq

/-- Per-channel configuration record (Log.h lines 73-79); the field
addStatusPrefix of the source is named withStatus here. -/
structure LogFileInfo where
  ext : Option (List Nat)
  header : List Nat
  stdOutput : StdOutput
  withStatus : Bool
deriving DecidableEq

/-- The frozen configuration table kLogFileInfo of Log.h lines 82-90. -/
def kLogFileInfo : LogType → LogFileInfo
  | .Error => ⟨some (bytes "err"), bytes "Error: ", .Err, true⟩
  | .Warning => ⟨some (bytes "warn"), bytes "Warning: ", .Err, true⟩
  | .Screen => ⟨none, [], .Out, false⟩
  | .Note => ⟨some (bytes "log"), [], .Out, false⟩
  | .File => ⟨some (bytes "file"), [], .Null, true⟩

/-- Mutable per-channel record, matching struct Log.LogFile (lines 262-273):
an owned file, the bound standard stream (Null models the NULL pointer), and
the content-seen flag. -/
structure LogFile where
  log : File
  stdStream : StdOutput
  hasContent : Bool
deriving DecidableEq

/-- State of the Log singleton: one LogFile per channel, the status string,
and the histories of writes emitted to the two process streams. Each stream
event is the result of one fprintf call (none when its behaviour is
undefined). -/
structure LogState where
  chErr : LogFile
  chWarn : LogFile
  chScreen : LogFile
  chNote : LogFile
  chFile : LogFile
  status : List Nat
  stderrOut : List (Option (List Nat))
  stdoutOut : List (Option (List Nat))
deriving DecidableEq

def getCh (s : LogState) : LogType → LogFile
  | .Error => s.chErr
  | .Warning => s.chWarn
  | .Screen => s.chScreen
  | .Note => s.chNote
  | .File => s.chFile

def setCh (s : LogState) (k : LogType) (c : LogFile) : LogState :=
  match k with
  | .Error => { s with chErr := c }
  | .Warning => { s with chWarn := c }
  | .Screen => { s with chScreen := c }
  | .Note => { s with chNote := c }
  | .File => { s with chFile := c }

/-- Emit one fprintf event to the selected process stream. -/
def emitTo (s : LogState) (dest : StdOutput) (ev : Option (List Nat)) : LogState :=
  match dest with
  | .Err => { s with stderrOut := s.stderrOut ++ [ev] }
  | .Out => { s with stdoutOut := s.stdoutOut ++ [ev] }
  | .Null => s

/-- Channel state at construction of the Log singleton, before the ctor body
runs: closed file, NULL stream, no content (Log.h lines 262-273). -/
def initCh : LogFile := ⟨⟨[], false, []⟩, .Null, false⟩

/-- Log state as member-initialised by the constructor, before its call to
SetLogFileNames. -/
def initState : LogState := ⟨initCh, initCh, initCh, initCh, initCh, [], [], []⟩

namespace Log

/-- Log.Close (Log.h lines 225-234): closes the file of every channel whose
configuration has an extension; stream bindings and content flags remain. -/
def closeCh (k : LogType) (ch : LogFile) : LogFile :=
  if (kLogFileInfo k).ext.isSome then { ch with log := ch.log.close } else ch

def Close (s : LogState) : LogState :=
  { s with
    chErr := closeCh .Error s.chErr
    chWarn := closeCh .Warning s.chWarn
    chScreen := closeCh .Screen s.chScreen
    chNote := closeCh .Note s.chNote
    chFile := closeCh .File s.chFile }

/-- Per-channel effect of Log.SetLogFileNames (lines 135-153): for a channel
with an extension, point the file at the derived path, create it (the call
may fail; the result is ignored) and write the banner; for every channel,
rebind the stream per the configuration table. The time argument is the
25-byte human-readable timestamp. -/
def configCh (path time : List Nat) (okk : Bool) (k : LogType) (ch : LogFile) : LogFile :=
  let li := kLogFileInfo k
  let log2 :=
    match li.ext with
    | some e => (((ch.log.setFile (path ++ [46] ++ e)).create okk).wr
        (bytes "File created ")).wr time
    | none => ch.log
  { ch with log := log2, stdStream := li.stdOutput }

/-- Log.SetLogFileNames (lines 121-154): close all files first, then
configure every channel. The oracle ok says which file creations succeed. -/
def SetLogFileNames (path time : List Nat) (ok : LogType → Bool) (s : LogState) : LogState :=
  let s1 := Close s
  { s1 with
    chErr := configCh path time (ok .Error) .Error s1.chErr
    chWarn := configCh path time (ok .Warning) .Warning s1.chWarn
    chScreen := configCh path time (ok .Screen) .Screen s1.chScreen
    chNote := configCh path time (ok .Note) .Note s1.chNote
    chFile := configCh path time (ok .File) .File s1.chFile }

/-- Log.Write (lines 161-223) on the rendered message bytes: compose the
final output, set the content flag, append to the channel file when the
channel has an extension and the output is non-empty, and pass the composed
bytes to fprintf on the bound stream. -/
def Write (k : LogType) (msg : List Nat) (s : LogState) : LogState :=
  let li := kLogFileInfo k
  let ch := getCh s k
  let out := composeOutput li.withStatus s.status msg
  let ch2 := { ch with hasContent := true }
  let ch3 :=
    if li.ext.isSome && !out.isEmpty then { ch2 with log := ch2.log.wr out } else ch2
  emitTo (setCh s k ch3) ch.stdStream (fprintfOut out)

/-- Log.HasContent (lines 236-240). -/
def HasContent (s : LogState) (k : LogType) : Bool := (getCh s k).hasContent

/-- Log.SetStatus (lines 242-245). -/
def SetStatus (s : LogState) (st : List Nat) : LogState := { s with status := st }

/-- The Log constructor (lines 255-258): member initialisation followed by
SetLogFileNames on the default base name. -/
def construct (time : List Nat) (ok : LogType → Bool) : LogState :=
  SetLogFileNames (bytes "Log") time ok initState

/-- The Log destructor (lines 103-114): close every file, then launch the
external viewer on the Error file path iff the Error channel has content.
The second component is the command line handed to Util.StartProcess, none
when no process is launched. -/
def Destruct (s : LogState) : LogState × Option (List Nat) :=
  let s1 := Close s
  if HasContent s1 LogType.Error then
    (s1, some (bytes "notepad.exe " ++ [34] ++ (getCh s1 LogType.Error).log.fPath ++ [34]))
  else (s1, none)

end Log

/-- Outcome of Util.FailureHandler: either an exception carrying the message
or the returned boolean. -/
inductive FailureResult
  | thrown (msg : List Nat)
  | returned (b : Bool)
deriving DecidableEq

/-- The failure message composed by Util.FailureHandler (Util.cpp line 311),
clipped to the 2048-byte stack buffer of sprintf_s. -/
def failMsg (e fileName : List Nat) (lineNum : Nat) : List Nat :=
  (bytes "Failed check " ++ [39] ++ e ++ [39] ++ bytes " in " ++ fileName
    ++ bytes " line " ++ bytes (Nat.repr lineNum) ++ [lfByte]).take (kLogBufferSize - 1)

/-- Util.FailureHandler (Util.cpp lines 304-317): format the message, log it
through the Error channel, then throw iff doThrow, else return false. -/
def FailureHandler (e fileName : List Nat) (lineNum : Nat) (doThrow : Bool)
    (s : LogState) : LogState × FailureResult :=
  let msg := failMsg e fileName lineNum
  let s2 := Log.Write LogType.Error msg s
  (s2, if doThrow then .thrown msg else .returned false)

/-- Operations on the Log singleton after construction, for reasoning about
arbitrary call sequences. The query constructor records a HasContent call,
which reads but does not change the state. -/
inductive LogOp
  | config (path time : List Nat) (ok : LogType → Bool)
  | write (k : LogType) (msg : List Nat)
  | close
  | setStatus (st : List Nat)
  | query (k : LogType)

def stepOp (op : LogOp) (s : LogState) : LogState :=
  match op with
  | .config p t ok => Log.SetLogFileNames p t ok s
  | .write k m => Log.Write k m s
  | .close => Log.Close s
  | .setStatus st => Log.SetStatus s st
  | .query _ => s

def runOps (ops : List LogOp) (s : LogState) : LogState :=
  ops.foldl (fun s op => stepOp op s) s

/-- Concrete inputs exhibiting the capacity defect of Log.Write. -/
def c1Status : List Nat := List.replicate kMaxStatusSize 83

def c1Msg : List Nat := List.replicate 1022 97

def c1Straddle : List Nat := [97, lfByte] ++ List.replicate 2043 97 ++ [lfByte, 122]

/-- A fixed 25-byte timestamp, standing for the asctime output written into
each banner. -/
def tTest : List Nat := List.replicate 25 84

/-- Oracle under which every file creation succeeds. -/
def okAllT : LogType → Bool := fun _ => true

/-- State right after construction of the singleton with all file creations
succeeding. -/
def sInit : LogState := Log.construct tTest okAllT

/-- Constructed state with the status string set to S. -/
def s7 : LogState := Log.SetStatus sInit (bytes "S")

/-- Constructed state in which every file creation failed, so every channel
file is closed. -/
def sClosedT : LogState := Log.construct tTest (fun _ => false)

/-- State for claim C4: construct, write one Error message, then reconfigure
with SetLogFileNames. -/
def c4State : LogState :=
  Log.SetLogFileNames (bytes "Log") tTest okAllT
    (Log.Write LogType.Error (bytes "x") sInit)

/-- A byte other than a line feed never triggers the conversion rule. -/
theorem convertsAt_eq_false (prev : Option Nat) (c : Nat) (h : c ≠ lfByte) :
    convertsAt prev c = false := by
  simp [convertsAt, h]

/-- After a carriage return, no byte triggers the conversion rule. -/
theorem convertsAt_after_cr (c : Nat) : convertsAt (some crByte) c = false := by
  simp [convertsAt]

/-- A list whose bytes are all distinct from the line feed has no bare line
feed after any previous byte. -/
theorem noBareLF_of_no_lf (l : List Nat) (h : ∀ c ∈ l, c ≠ lfByte) (prev : Option Nat) :
    noBareLF prev l = true := by
  induction l generalizing prev with
  | nil => rfl
  | cons c rest ih =>
    have hc : c ≠ lfByte := h c (List.mem_cons_self c rest)
    simp [noBareLF, convertsAt_eq_false prev c hc]
    exact ih (fun d hd => h d (List.mem_cons_of_mem c hd)) (some c)

/-- On input with no convertible line feed, the unbounded scan is the
identity. -/
theorem normWC_eq_self (l : List Nat) (prev : Option Nat) (h : noBareLF prev l = true) :
    normWC l prev = l := by
  induction l generalizing prev with
  | nil => rfl
  | cons c rest ih =>
    simp only [noBareLF, Bool.and_eq_true, Bool.not_eq_true'] at h
    simp [normWC, h.1, ih (some c) h.2]

/-- The output of the unbounded scan has no convertible line feed left. -/
theorem noBareLF_normWC (l : List Nat) (prev : Option Nat) :
    noBareLF prev (normWC l prev) = true := by
  induction l generalizing prev with
  | nil => rfl
  | cons c rest ih =>
    by_cases hc : convertsAt prev c = true
    · have hclf : c = lfByte := by
        have := hc
        simp [convertsAt, Bool.and_eq_true] at this
        exact Nat.eq_of_beq_eq_true (by simpa [convertsAt] using this.1)
      simp [normWC, hc, noBareLF, convertsAt_eq_false prev crByte (by decide),
        convertsAt_after_cr, ih (some c)]
    · have hc2 : convertsAt prev c = false := by
        cases hcv : convertsAt prev c
        · rfl
        · exact absurd hcv hc
      simp [normWC, hc2, noBareLF, ih (some c)]

/-- The no-bare-line-feed property restricts to left factors. -/
theorem noBareLF_append_left (a b : List Nat) (prev : Option Nat)
    (h : noBareLF prev (a ++ b) = true) : noBareLF prev a = true := by
  induction a generalizing prev with
  | nil => rfl
  | cons c rest ih =>
    simp only [List.cons_append, noBareLF, Bool.and_eq_true] at h ⊢
    exact ⟨h.1, ih (some c) h.2⟩

/-- The bounded scan always writes an initial segment of the unbounded scan:
it performs the same conversions and can only stop early. -/
theorem normLoop_isPre (re1 : Nat) (l : List Nat) (prev : Option Nat) (r : Nat) :
    ∃ t, normLoop re1 l prev r ++ t = normWC l prev := by
  induction l generalizing prev r with
  | nil => exact ⟨[], rfl⟩
  | cons c rest ih =>
    by_cases hr : r = re1
    · exact ⟨normWC (c :: rest) prev, by simp [normLoop, hr]⟩
    · by_cases hc : convertsAt prev c = true
      · obtain ⟨t, ht⟩ := ih (some c) (r + 2)
        exact ⟨t, by simp [normLoop, hr, hc, normWC, ht]⟩
      · have hc2 : convertsAt prev c = false := by
          cases hcv : convertsAt prev c
          · rfl
          · exact absurd hcv hc
        obtain ⟨t, ht⟩ := ih (some c) (r + 1)
        exact ⟨t, by simp [normLoop, hr, hc2, normWC, ht]⟩

/-- When the full converted output fits below the capacity guard, the bounded
scan never stops early and agrees with the unbounded scan. -/
theorem normLoop_eq_normWC (re1 : Nat) (l : List Nat) (prev : Option Nat) (r : Nat)
    (h : r + (normWC l prev).length ≤ re1) :
    normLoop re1 l prev r = normWC l prev := by
  induction l generalizing prev r with
  | nil => rfl
  | cons c rest ih =>
    have hlen : 0 < (normWC (c :: rest) prev).length := by
      by_cases hc : convertsAt prev c = true <;> simp [normWC, hc]
    have hr : r ≠ re1 := by omega
    by_cases hc : convertsAt prev c = true
    · have h2 : r + 2 + (normWC rest (some c)).length ≤ re1 := by
        have : (normWC (c :: rest) prev).length = 2 + (normWC rest (some c)).length := by
          simp [normWC, hc]
          omega
        omega
      simp [normLoop, hr, hc, normWC, ih (some c) (r + 2) h2]
    · have hc2 : convertsAt prev c = false := by
        cases hcv : convertsAt prev c
        · rfl
        · exact absurd hcv hc
      have h2 : r + 1 + (normWC rest (some c)).length ≤ re1 := by
        have : (normWC (c :: rest) prev).length = 1 + (normWC rest (some c)).length := by
          simp [normWC, hc2]
          omega
        omega
      simp [normLoop, hr, hc2, normWC, ih (some c) (r + 1) h2]

/-- On input with no convertible line feed and total length below the
capacity, the normalization of Log.Write is the identity. -/
theorem normalize_eq_self (l : List Nat) (h1 : noBareLF none l = true)
    (h2 : l.length ≤ kLogBufferSize - 1) :
    normalize l = l := by
  have hwc : normWC l none = l := normWC_eq_self l none h1
  have := normLoop_eq_normWC (kLogBufferSize - 1) l none 0 (by rw [hwc]; omega)
  rw [normalize, this, hwc]

/-- A run of a fixed non-line-feed byte is copied verbatim by the bounded
scan as long as the cursor stays at or below the guard index. -/
theorem normLoop_replicate_append (re1 n a : Nat) (tail : List Nat) (prev : Option Nat)
    (r : Nat) (ha : a ≠ lfByte) (hr : r + n ≤ re1) :
    normLoop re1 (List.replicate n a ++ tail) prev r
      = List.replicate n a ++ normLoop re1 tail (if n = 0 then prev else some a) (r + n) := by
  induction n generalizing prev r with
  | zero => simp
  | succ m ih =>
    have hrne : r ≠ re1 := by omega
    have hm : r + 1 + m ≤ re1 := by omega
    simp only [List.replicate_succ, List.cons_append, normLoop, hrne, if_false,
      convertsAt_eq_false prev a ha, Bool.false_eq_true, List.append_eq]
    rw [ih (some a) (r + 1) hm]
    simp only [ite_self]
    have : r + 1 + m = r + (m + 1) := by omega
    simp [this]

/-- The composed output at the C1 inputs is the 1026-byte status chunk
followed by the whole 1022-byte body. -/
theorem c1_compose_eq :
    composeOutput true c1Status c1Msg = (List.replicate 1024 83 ++ [58, 32]) ++ c1Msg := by
  have hmsg : noBareLF none c1Msg = true :=
    noBareLF_of_no_lf _ (fun c hc => by
      rw [List.eq_of_mem_replicate hc]; decide) none
  have hlmsg : c1Msg.length = 1022 := by
    simp only [c1Msg, List.length_replicate]
  have hnorm : normalize c1Msg = c1Msg :=
    normalize_eq_self _ hmsg (by rw [hlmsg]; decide)
  have htake : c1Msg.take (kLogBufferSize - 1) = c1Msg :=
    List.take_of_length_le (by rw [hlmsg]; decide)
  have hsp : statusChunk true c1Status = List.replicate 1024 83 ++ [58, 32] := by
    simp [statusChunk, c1Status, kMaxStatusSize, List.isEmpty_iff]
  have hlsp : (statusChunk true c1Status).length = 1026 := by
    rw [hsp]
    simp only [List.length_append, List.length_replicate, List.length_cons, List.length_nil]
  have hmin : min (normalize (c1Msg.take (kLogBufferSize - 1))).length
      (kLogBufferSize - (statusChunk true c1Status).length) = 1022 := by
    rw [htake, hnorm, hlmsg, hlsp]
    decide
  have htake2 : c1Msg.take 1022 = c1Msg := List.take_of_length_le (by rw [hlmsg])
  show statusChunk true c1Status
      ++ (normalize (c1Msg.take (kLogBufferSize - 1))).take
          (min (normalize (c1Msg.take (kLogBufferSize - 1))).length
            (kLogBufferSize - (statusChunk true c1Status).length))
      = _
  rw [hmin, htake, hnorm, htake2, hsp]

/-- C1: with a maximal status (1024 bytes) and a 1022-byte body, Log.Write
composes totalLogChars = 2048 = kLogBufferSize, contradicting its own
assert( totalLogChars < kLogBufferSize ) at Log.h line 208 and placing the
terminating NUL one byte past the 2048-byte stack buffer; moreover, on a
2047-byte rendered message whose conversion straddles the guard index, the
LF scan steps over re - 1 and stores 2049 bytes, so bytes land outside the
2048-byte replace buffer. The claim that no write ever occurs outside the
fixed buffer is therefore violated by the code. -/
theorem c1_capacity_bug :
    (composeOutput true c1Status c1Msg).length = kLogBufferSize
      ∧ ¬((composeOutput true c1Status c1Msg).length < kLogBufferSize)
      ∧ (normalize c1Straddle).length = kLogBufferSize + 1
      ∧ c1Straddle.length = kLogBufferSize - 1 := by
  have hlen : (composeOutput true c1Status c1Msg).length = kLogBufferSize := by
    rw [c1_compose_eq]
    simp only [List.length_append, List.length_replicate, List.length_cons, List.length_nil,
      c1Msg]
    decide
  have hstraddle : (normalize c1Straddle).length = kLogBufferSize + 1 := by
    have hblock : normLoop 2047 (List.replicate 2043 97 ++ [lfByte, 122]) (some lfByte) 3
        = List.replicate 2043 97 ++ normLoop 2047 [lfByte, 122] (some 97) 2046 := by
      have h := normLoop_replicate_append 2047 2043 97 [lfByte, 122] (some lfByte) 3
        (by decide) (by decide)
      rw [if_neg (by decide : ¬(2043 = 0))] at h
      exact h
    have htail : normLoop 2047 [lfByte, 122] (some 97) 2046 = [crByte, lfByte, 122] := by
      rw [normLoop, if_neg (by decide), if_pos (by decide)]
      rw [normLoop, if_neg (by decide), if_neg (by decide)]
      rfl
    have hhead : normalize c1Straddle
        = 97 :: crByte :: lfByte ::
            normLoop 2047 (List.replicate 2043 97 ++ [lfByte, 122]) (some lfByte) 3 := by
      show normLoop (kLogBufferSize - 1) c1Straddle none 0 = _
      have h1 : c1Straddle = 97 :: lfByte :: (List.replicate 2043 97 ++ [lfByte, 122]) := by
        simp [c1Straddle]
      rw [h1]
      show normLoop 2047 _ none 0 = _
      rw [normLoop, if_neg (by decide), if_neg (by decide)]
      rw [normLoop, if_neg (by decide), if_pos (by decide)]
    rw [hhead, hblock, htail]
    simp only [List.length_cons, List.length_append, List.length_replicate]
    decide
  refine ⟨hlen, by rw [hlen]; omega, hstraddle, by simp [c1Straddle, kLogBufferSize]⟩

/-- C2 counterexample: a line feed at the first position of the rendered
message is left bare by Log.Write (the guard b != buffer at Log.h line 179),
while the claim, formalised as normClaim, rewrites it to CR LF. -/
theorem c2_counterexample :
    normClaim [lfByte] none = [crByte, lfByte]
      ∧ normalize [lfByte] = [lfByte]
      ∧ normalize [lfByte] ≠ normClaim [lfByte] none := by
  refine ⟨by decide, by decide, by decide⟩

/-- C2 amended: the scan of Log.Write rewrites every line feed that has a
preceding rendered byte other than a carriage return into a CR LF pair and
leaves a line feed at the first position bare; it visits the rendered bytes
once left-to-right, writing an initial segment of the unbounded conversion
normWC; when the converted output fits under the capacity no truncation
happens; the unbounded conversion is idempotent, and the bounded scan is
idempotent on every output that fits within the capacity. -/
theorem c2_normalize_amended (s : List Nat) :
    (∃ t, normalize s ++ t = normWC s none)
      ∧ ((normWC s none).length < kLogBufferSize → normalize s = normWC s none)
      ∧ normWC (normWC s none) none = normWC s none
      ∧ ((normalize s).length < kLogBufferSize → normalize (normalize s) = normalize s)
      ∧ normalize (bytes "a\n") = bytes "a\r\n"
      ∧ normalize (bytes "a\r\n") = bytes "a\r\n"
      ∧ normalize (lfByte :: bytes "ab") = lfByte :: bytes "ab" := by
  refine ⟨normLoop_isPre _ s none 0, ?_, ?_, ?_, by decide, by decide, by decide⟩
  · intro h
    exact normLoop_eq_normWC _ s none 0 (by simp [kLogBufferSize] at h ⊢; omega)
  · exact normWC_eq_self _ none (noBareLF_normWC s none)
  · intro h
    obtain ⟨t, ht⟩ := normLoop_isPre (kLogBufferSize - 1) s none 0
    have hb : noBareLF none (normalize s) = true := by
      refine noBareLF_append_left _ t none ?_
      have ht2 : normalize s ++ t = normWC s none := ht
      rw [ht2]
      exact noBareLF_normWC s none
    have hwc : normWC (normalize s) none = normalize s := normWC_eq_self _ none hb
    have : normLoop (kLogBufferSize - 1) (normalize s) none 0 = normWC (normalize s) none :=
      normLoop_eq_normWC _ _ none 0 (by rw [hwc]; simp [kLogBufferSize] at h ⊢; omega)
    calc normalize (normalize s) = normWC (normalize s) none := this
      _ = normalize s := hwc

/-- Witness instantiating the amended C2 statement at a concrete input and
discharging its capacity hypotheses. -/
theorem c2_normalize_amended_witness :
    (∃ t, normalize (bytes "a\n") ++ t = normWC (bytes "a\n") none)
      ∧ normalize (bytes "a\n") = normWC (bytes "a\n") none
      ∧ normalize (normalize (bytes "a\n")) = normalize (bytes "a\n") :=
  ⟨(c2_normalize_amended (bytes "a\n")).1,
    (c2_normalize_amended (bytes "a\n")).2.1 (by decide),
    (c2_normalize_amended (bytes "a\n")).2.2.2.1 (by decide)⟩

/-- Reading a channel is unaffected by a stream emission. -/
theorem getCh_emitTo (s : LogState) (d : StdOutput) (ev : Option (List Nat)) (k : LogType) :
    getCh (emitTo s d ev) k = getCh s k := by
  cases d <;> cases k <;> rfl

/-- Reading after updating one channel. -/
theorem getCh_setCh (s : LogState) (k : LogType) (c : LogFile) (k2 : LogType) :
    getCh (setCh s k c) k2 = if k2 = k then c else getCh s k2 := by
  cases k <;> cases k2 <;> simp [setCh, getCh]

/-- Updating a channel record leaves the stderr history unchanged. -/
theorem stderrOut_setCh (s : LogState) (k : LogType) (c : LogFile) :
    (setCh s k c).stderrOut = s.stderrOut := by
  cases k <;> rfl

/-- Updating a channel record leaves the stdout history unchanged. -/
theorem stdoutOut_setCh (s : LogState) (k : LogType) (c : LogFile) :
    (setCh s k c).stdoutOut = s.stdoutOut := by
  cases k <;> rfl

/-- Updating a channel record leaves the status unchanged. -/
theorem status_setCh (s : LogState) (k : LogType) (c : LogFile) :
    (setCh s k c).status = s.status := by
  cases k <;> rfl

/-- Log.Write sets the content flag of the addressed channel and otherwise
only touches its file and the stream histories. -/
theorem hasContent_write (k2 k : LogType) (msg : List Nat) (s : LogState) :
    Log.HasContent (Log.Write k2 msg s) k = (Log.HasContent s k || (k == k2)) := by
  simp only [Log.Write, Log.HasContent, getCh_emitTo, getCh_setCh]
  by_cases h : k = k2
  · subst h
    rw [if_pos rfl, beq_self_eq_true, Bool.or_true, apply_ite LogFile.hasContent]
    split <;> rfl
  · rw [if_neg h, beq_eq_false_iff_ne.mpr h, Bool.or_false]

/-- The per-channel configure step preserves the content flag. -/
theorem configCh_hasContent (p t : List Nat) (b : Bool) (k : LogType) (ch : LogFile) :
    (Log.configCh p t b k ch).hasContent = ch.hasContent := by
  cases k <;> rfl

/-- The per-channel close step preserves the content flag. -/
theorem closeCh_hasContent (k : LogType) (ch : LogFile) :
    (Log.closeCh k ch).hasContent = ch.hasContent := by
  cases k <;> rfl

/-- Log.Close preserves every content flag. -/
theorem hasContent_close (s : LogState) (k : LogType) :
    Log.HasContent (Log.Close s) k = Log.HasContent s k := by
  cases k <;> simp [Log.Close, Log.HasContent, getCh, closeCh_hasContent]

/-- Log.SetLogFileNames preserves every content flag. -/
theorem hasContent_config (p t : List Nat) (ok : LogType → Bool) (s : LogState) (k : LogType) :
    Log.HasContent (Log.SetLogFileNames p t ok s) k = Log.HasContent s k := by
  cases k <;>
    simp [Log.SetLogFileNames, Log.HasContent, getCh, configCh_hasContent, Log.Close,
      closeCh_hasContent]

/-- Log.SetStatus preserves every content flag. -/
theorem hasContent_setStatus (s : LogState) (st : List Nat) (k : LogType) :
    Log.HasContent (Log.SetStatus s st) k = Log.HasContent s k := by
  cases k <;> rfl

/-- No operation of the Log interface lowers a content flag. -/
theorem stepOp_mono (op : LogOp) (s : LogState) (k : LogType)
    (h : Log.HasContent s k = true) : Log.HasContent (stepOp op s) k = true := by
  cases op with
  | config p t ok => rw [stepOp, hasContent_config]; exact h
  | write k2 m => rw [stepOp, hasContent_write, h, Bool.true_or]
  | close => rw [stepOp, hasContent_close]; exact h
  | setStatus st => rw [stepOp, hasContent_setStatus]; exact h
  | query _ => exact h

/-- On a list with no percent byte, fprintf with the list as format string
reproduces the list exactly. -/
theorem fprintfOut_of_no_pct (l : List Nat) (h : 37 ∉ l) : fprintfOut l = some l := by
  induction l with
  | nil => rfl
  | cons c rest ih =>
    have hc : c ≠ 37 := fun hc => h (hc ▸ List.mem_cons_self c rest)
    have hr : 37 ∉ rest := fun hr => h (List.mem_cons_of_mem c hr)
    rw [fprintfOut.eq_def]
    simp only [if_neg hc]
    rw [ih hr]
    rfl

/-- C3 counterexample: on the message a%%b the Error file receives the four
bytes a%%b while fprintf collapses the doubled percent, so stderr receives
a%b; the stream bytes differ from the file bytes. -/
theorem c3_counterexample :
    (getCh (Log.Write LogType.Error (bytes "a%%b") sInit) LogType.Error).log.content
        = (getCh sInit LogType.Error).log.content ++ bytes "a%%b"
      ∧ (Log.Write LogType.Error (bytes "a%%b") sInit).stderrOut
        = sInit.stderrOut ++ [some (bytes "a%b")]
      ∧ bytes "a%b" ≠ bytes "a%%b" := by
  refine ⟨by decide, by decide, by decide⟩

/-- C3 amended: when the composed output contains no percent byte, the bytes
passed to the stream equal the bytes appended to the file; in general the
stream receives the composed bytes reinterpreted as a printf format string. -/
theorem c3_stream_matches_file (s : LogState) (msg : List Nat)
    (hno : 37 ∉ composeOutput true s.status msg)
    (hstream : (getCh s LogType.Error).stdStream = StdOutput.Err) :
    fprintfOut (composeOutput true s.status msg) = some (composeOutput true s.status msg)
      ∧ (Log.Write LogType.Error msg s).stderrOut
          = s.stderrOut ++ [some (composeOutput true s.status msg)]
      ∧ (getCh (Log.Write LogType.Error msg s) LogType.Error).log.content
          = (getCh s LogType.Error).log.content
              ++ (if (getCh s LogType.Error).log.fOpen
                  then composeOutput true s.status msg else []) := by
  have hf : fprintfOut (composeOutput true s.status msg)
      = some (composeOutput true s.status msg) := fprintfOut_of_no_pct _ hno
  have hw : (kLogFileInfo LogType.Error).withStatus = true := rfl
  refine ⟨hf, ?_, ?_⟩
  · simp only [Log.Write, hstream, hw, hf]
    show (emitTo _ StdOutput.Err _).stderrOut = _
    simp only [emitTo, stderrOut_setCh]
  · simp only [Log.Write, getCh_emitTo, getCh_setCh, if_pos rfl]
    by_cases hemp : (composeOutput (kLogFileInfo LogType.Error).withStatus s.status msg).isEmpty
    · have hnil : composeOutput true s.status msg = [] := by
        have : composeOutput (kLogFileInfo LogType.Error).withStatus s.status msg = [] :=
          List.isEmpty_iff.mp hemp
        exact this
      simp only [hemp, Bool.not_true, Bool.and_false, if_neg (by simp : ¬(false = true))]
      rw [hnil]
      split <;> simp
    · have hw : (kLogFileInfo LogType.Error).withStatus = true := rfl
      simp only [Bool.not_eq_true, Bool.not_eq_false] at hemp
      simp only [hemp]
      show ({ getCh s LogType.Error with hasContent := true }.log.wr
          (composeOutput true s.status msg)).content = _
      simp only [File.wr]
      split
      · next hopen =>
        have : (getCh s LogType.Error).log.fOpen = true := hopen
        simp [this]
      · next hopen =>
        have : (getCh s LogType.Error).log.fOpen = false := by
          revert hopen
          cases (getCh s LogType.Error).log.fOpen <;> simp
        simp [this]

/-- Witness instantiating the amended C3 statement at a percent-free message
on the freshly constructed state. -/
theorem c3_stream_matches_file_witness :
    fprintfOut (composeOutput true sInit.status (bytes "ab"))
        = some (composeOutput true sInit.status (bytes "ab"))
      ∧ (Log.Write LogType.Error (bytes "ab") sInit).stderrOut
          = sInit.stderrOut ++ [some (composeOutput true sInit.status (bytes "ab"))]
      ∧ (getCh (Log.Write LogType.Error (bytes "ab") sInit) LogType.Error).log.content
          = (getCh sInit LogType.Error).log.content
              ++ (if (getCh sInit LogType.Error).log.fOpen
                  then composeOutput true sInit.status (bytes "ab") else []) :=
  c3_stream_matches_file sInit (bytes "ab") (by decide) (by decide)

/-- C4 counterexample: after a Write on the Error channel, a re-configure by
SetLogFileNames leaves HasContent true, while the claim requires it to be
false immediately after every configure call. -/
theorem c4_counterexample : Log.HasContent c4State LogType.Error = true := by decide

/-- C4 amended: HasContent is false at fresh construction (hence after the
initial configure run by the constructor); SetLogFileNames, Close and
SetStatus never change it; one Write on the channel makes it true, a Write
on another channel leaves it as it was, and it stays true thereafter. -/
theorem c4_hasContent_lifecycle (s : LogState) (p t st msg : List Nat)
    (ok : LogType → Bool) (k k2 : LogType) :
    Log.HasContent (Log.SetLogFileNames p t ok s) k = Log.HasContent s k
      ∧ Log.HasContent (Log.construct t ok) k = false
      ∧ Log.HasContent (Log.Write k msg s) k = true
      ∧ Log.HasContent (Log.Write k2 msg s) k = (Log.HasContent s k || (k == k2))
      ∧ Log.HasContent (Log.Close s) k = Log.HasContent s k
      ∧ Log.HasContent (Log.SetStatus s st) k = Log.HasContent s k := by
  refine ⟨hasContent_config p t ok s k, ?_, ?_, hasContent_write k2 k msg s,
    hasContent_close s k, hasContent_setStatus s st k⟩
  · rw [Log.construct, hasContent_config]
    cases k <;> rfl
  · rw [hasContent_write]
    simp

/-- C5: the content flag of every channel is monotone: no sequence of
interface operations ever resets it once set, and it starts false in the
freshly constructed state. -/
theorem c5_hasContent_monotone (ops : List LogOp) (s : LogState) (k : LogType)
    (h : Log.HasContent s k = true) :
    Log.HasContent (runOps ops s) k = true ∧ Log.HasContent initState k = false := by
  refine ⟨?_, by cases k <;> rfl⟩
  induction ops generalizing s with
  | nil => exact h
  | cons op rest ih => exact ih (stepOp op s) (stepOp_mono op s k h)

/-- Witness for C5: set the Error flag by one write, then run a Close; the
flag is still set. -/
theorem c5_hasContent_monotone_witness :
    Log.HasContent (runOps [LogOp.close] (Log.Write LogType.Error (bytes "x") initState))
        LogType.Error = true
      ∧ Log.HasContent initState LogType.Error = false :=
  c5_hasContent_monotone [LogOp.close] (Log.Write LogType.Error (bytes "x") initState)
    LogType.Error (by decide)

/-- C6: a Write on a file-backed channel whose file is not open changes the
state only by setting the content flag and emitting the composed bytes to
the bound stream: no file content changes anywhere. -/
theorem c6_write_skips_closed_file (s : LogState) (k : LogType) (msg : List Nat)
    (hext : (kLogFileInfo k).ext.isSome = true)
    (hclosed : (getCh s k).log.fOpen = false) :
    Log.Write k msg s
      = emitTo (setCh s k { getCh s k with hasContent := true }) (getCh s k).stdStream
          (fprintfOut (composeOutput (kLogFileInfo k).withStatus s.status msg)) := by
  have h1 : ({ getCh s k with hasContent := true } : LogFile).log.wr
      (composeOutput (kLogFileInfo k).withStatus s.status msg)
      = ({ getCh s k with hasContent := true } : LogFile).log := by
    simp [File.wr, hclosed]
  simp only [Log.Write, h1]
  have h2 : (if (kLogFileInfo k).ext.isSome
          && !(composeOutput (kLogFileInfo k).withStatus s.status msg).isEmpty
      then { { getCh s k with hasContent := true } with
              log := ({ getCh s k with hasContent := true } : LogFile).log }
      else { getCh s k with hasContent := true })
      = ({ getCh s k with hasContent := true } : LogFile) := by
    split <;> rfl
  rw [h2]

/-- Witness for C6 at the state in which every file creation failed. -/
theorem c6_write_skips_closed_file_witness :
    (kLogFileInfo LogType.Error).ext.isSome = true
      ∧ (getCh sClosedT LogType.Error).log.fOpen = false
      ∧ Log.Write LogType.Error (bytes "x") sClosedT
          = emitTo (setCh sClosedT LogType.Error
                { getCh sClosedT LogType.Error with hasContent := true })
              (getCh sClosedT LogType.Error).stdStream
              (fprintfOut (composeOutput (kLogFileInfo LogType.Error).withStatus
                sClosedT.status (bytes "x"))) :=
  ⟨by decide, by decide,
    c6_write_skips_closed_file sClosedT LogType.Error (bytes "x") (by decide) (by decide)⟩

/-- C7 counterexample: with status S, Write of hello appends exactly the
eight bytes of S colon space hello, with no trailing CR LF, while the claim
requires the ten bytes ending in CR LF. -/
theorem c7_counterexample :
    (getCh (Log.Write LogType.Error (bytes "hello") s7) LogType.Error).log.content
        = (getCh s7 LogType.Error).log.content ++ bytes "S: hello"
      ∧ bytes "S: hello" ≠ bytes "S: hello" ++ [crByte, lfByte] := by
  refine ⟨by decide, by decide⟩

/-- C7 amended: with status S, a status-prefixed channel appends exactly the
status, colon, space and the body; a line terminator appears only when the
message itself ends in a line feed, in which case it becomes CR LF. Checked
on the Error and Warning channels (file and stderr) and on the File channel
(file only, no stream). -/
theorem c7_status_line :
    ((getCh (Log.Write LogType.Error (bytes "hello") s7) LogType.Error).log.content
        = (getCh s7 LogType.Error).log.content ++ bytes "S: hello")
      ∧ ((Log.Write LogType.Error (bytes "hello") s7).stderrOut
        = s7.stderrOut ++ [some (bytes "S: hello")])
      ∧ ((getCh (Log.Write LogType.Error (bytes "hello\n") s7) LogType.Error).log.content
        = (getCh s7 LogType.Error).log.content ++ (bytes "S: hello" ++ [crByte, lfByte]))
      ∧ ((Log.Write LogType.Error (bytes "hello\n") s7).stderrOut
        = s7.stderrOut ++ [some (bytes "S: hello" ++ [crByte, lfByte])])
      ∧ ((getCh (Log.Write LogType.Warning (bytes "hello\n") s7) LogType.Warning).log.content
        = (getCh s7 LogType.Warning).log.content ++ (bytes "S: hello" ++ [crByte, lfByte]))
      ∧ ((Log.Write LogType.Warning (bytes "hello\n") s7).stderrOut
        = s7.stderrOut ++ [some (bytes "S: hello" ++ [crByte, lfByte])])
      ∧ ((getCh (Log.Write LogType.File (bytes "hello\n") s7) LogType.File).log.content
        = (getCh s7 LogType.File).log.content ++ (bytes "S: hello" ++ [crByte, lfByte]))
      ∧ ((Log.Write LogType.File (bytes "hello\n") s7).stderrOut = s7.stderrOut)
      ∧ ((Log.Write LogType.File (bytes "hello\n") s7).stdoutOut = s7.stdoutOut) := by
  decide

/-- C8: the destructor closes every channel file first and launches the
external viewer command on the Error file path iff the Error channel has
content; with no Error write, nothing is launched. -/
theorem c8_teardown (s : LogState) :
    ((Log.Destruct s).1.chErr.log.fOpen = false)
      ∧ ((Log.Destruct s).1.chWarn.log.fOpen = false)
      ∧ ((Log.Destruct s).1.chNote.log.fOpen = false)
      ∧ ((Log.Destruct s).1.chFile.log.fOpen = false)
      ∧ ((Log.Destruct s).2
          = if Log.HasContent s LogType.Error then
              some (bytes "notepad.exe " ++ [34]
                ++ (getCh s LogType.Error).log.fPath ++ [34])
            else none) := by
  have h1 : (Log.Destruct s).1 = Log.Close s := by
    simp only [Log.Destruct]
    split <;> rfl
  refine ⟨by rw [h1]; rfl, by rw [h1]; rfl, by rw [h1]; rfl, by rw [h1]; rfl, ?_⟩
  simp only [Log.Destruct]
  split
  · next hc =>
    have hc2 : Log.HasContent s LogType.Error = true := hc
    rw [if_pos hc2]
    rfl
  · next hc =>
    have hc2 : ¬Log.HasContent s LogType.Error = true := fun hx => hc hx
    rw [if_neg hc2]

/-- C9: FailureHandler routes its formatted message through a Write on the
Error channel (setting its content flag), throws exactly when doThrow is
true, and returns the boolean false when doThrow is false. -/
theorem c9_failure_handler (e fn : List Nat) (lineNum : Nat) (doThrow : Bool)
    (s : LogState) :
    (FailureHandler e fn lineNum doThrow s).2
        = (if doThrow then FailureResult.thrown (failMsg e fn lineNum)
           else FailureResult.returned false)
      ∧ Log.HasContent (FailureHandler e fn lineNum doThrow s).1 LogType.Error = true
      ∧ (FailureHandler e fn lineNum doThrow s).1
          = Log.Write LogType.Error (failMsg e fn lineNum) s := by
  refine ⟨rfl, ?_, rfl⟩
  show Log.HasContent (Log.Write LogType.Error (failMsg e fn lineNum) s) LogType.Error = true
  rw [hasContent_write]
  simp

/-- C10: a Write whose composed output is empty still sets the content flag
of the channel and still performs the stream step (an fprintf of zero
bytes), while no file content changes anywhere, open or not. -/
theorem c10_empty_write (s : LogState) (k : LogType)
    (hout : composeOutput (kLogFileInfo k).withStatus s.status [] = []) :
    Log.HasContent (Log.Write k [] s) k = true
      ∧ (∀ k2, (getCh (Log.Write k [] s) k2).log.content = (getCh s k2).log.content)
      ∧ Log.Write k [] s
          = emitTo (setCh s k { getCh s k with hasContent := true }) (getCh s k).stdStream
              (some []) := by
  have hstate : Log.Write k [] s
      = emitTo (setCh s k { getCh s k with hasContent := true }) (getCh s k).stdStream
          (some []) := by
    simp only [Log.Write, hout, List.isEmpty_nil, Bool.not_true, Bool.and_false,
      Bool.false_eq_true, if_false]
    rfl
  refine ⟨?_, ?_, hstate⟩
  · rw [Log.HasContent, hstate, getCh_emitTo, getCh_setCh, if_pos rfl]
  · intro k2
    rw [hstate, getCh_emitTo, getCh_setCh]
    split
    · next hk => rw [hk]
    · rfl

/-- Witness for C10 on the freshly constructed state, whose Error file is
open and whose status is empty. -/
theorem c10_empty_write_witness :
    Log.HasContent (Log.Write LogType.Error [] sInit) LogType.Error = true
      ∧ (getCh (Log.Write LogType.Error [] sInit) LogType.Error).log.content
          = (getCh sInit LogType.Error).log.content
      ∧ Log.Write LogType.Error [] sInit
          = emitTo (setCh sInit LogType.Error
                { getCh sInit LogType.Error with hasContent := true })
              (getCh sInit LogType.Error).stdStream (some []) :=
  ⟨(c10_empty_write sInit LogType.Error (by decide)).1,
    (c10_empty_write sInit LogType.Error (by decide)).2.1 LogType.Error,
    (c10_empty_write sInit LogType.Error (by decide)).2.2⟩

end PKIsensee
